import Mathlib

/-!
Verification of the feed-aggregator build script (`build.py`) of
the-future-modern.  The Python source is shallowly embedded below:
pure functions become Lean functions, XML nodes become structures that
record exactly the fields the parser reads, the stdlib date parsers
(`email.utils.parsedate_to_datetime`, `datetime.fromisoformat`) are
passed in as `String → Option δ` parameters, and Python string
operations are re-implemented character by character.
-/

namespace TFM

/-- A normalized feed entry, as built by `parse_rss` / `parse_atom` in
`build.py`.  The date type `δ` is abstract because the two dialects use
different stdlib date parsers; the aggregator instantiates it. -/
structure Entry (δ : Type) where
  title : String
  link : String
  description : String
  date : Option δ
  source : String
  category : String
  author : String
  image : String
deriving DecidableEq, Repr

/-- One RSS `item` node, recording the fields `parse_rss` reads.
Strings model `findtext(tag, "")` results (missing element or missing
text gives `""`).  `media` is the `url` attribute (defaulted to `""`)
of the Media-RSS `content` element when that element is present;
`enclosure` is the `(type, url)` attribute pair (each defaulted to
`""`) of the `enclosure` element when present. -/
structure RssItem where
  title : String
  link : String
  description : String
  pubDate : String
  dcCreator : String
  author : String
  media : Option String
  enclosure : Option (String × String)
  contentEncoded : String
deriving DecidableEq, Repr

/-- One Atom `entry` node, recording the fields `parse_atom` reads.
`linkAlternate` is the `href` attribute (defaulted `""`) of the first
`link[@rel='alternate']` child when present; `linkFirst` likewise for
the first `link` child.  `contentText` is the text of the `content`
child when the element is present with non-None text; `authorName` is
the text of `author/name` when present with non-None text. -/
structure AtomNode where
  title : String
  linkAlternate : Option String
  linkFirst : Option String
  summary : String
  contentText : Option String
  updated : String
  published : String
  authorName : Option String
deriving DecidableEq, Repr

/-- Predicate `listStartsWith hay needle`: true when `needle` is an initial
segment of `hay`. -/
def listStartsWith : List Char → List Char → Bool
  | _, [] => true
  | [], _ :: _ => false
  | c :: t, d :: u => c = d && listStartsWith t u

/-- Scan of Python `str.find(sub, start)`: first index `≥ i` where
`needle` begins in the remaining text (the accumulator `i` is the
absolute index of the head of the first argument). -/
def findAux (needle : List Char) : List Char → Nat → Option Nat
  | [], i => if listStartsWith [] needle then some i else none
  | c :: t, i => if listStartsWith (c :: t) needle then some i else findAux needle t (i + 1)

/-- Python's `sub in s` substring test (for non-empty `sub`, which is
all this program uses). -/
def containsSub (hay needle : List Char) : Bool :=
  (findAux needle hay 0).isSome

/-- Python `sub in s` on strings. -/
def strContains (s sub : String) : Bool :=
  containsSub s.data sub.data

/-- Python `s.find(sub, start)`, with `none` for `-1`. -/
def strFind (s needle : String) (start : Nat) : Option Nat :=
  findAux needle.data (s.data.drop start) start

/-- Drop leading whitespace characters. -/
def dropLeadingWS : List Char → List Char
  | [] => []
  | c :: t => if c.isWhitespace then dropLeadingWS t else c :: t

/-- Python `str.strip()`: remove leading and trailing whitespace
(ASCII whitespace, which is all that occurs in this pipeline). -/
def strTrim (s : String) : String :=
  String.mk (dropLeadingWS ((dropLeadingWS s.data.reverse).reverse))

/-- Python `s[:n]` character slicing. -/
def strTake (s : String) (n : Nat) : String :=
  String.mk (s.data.take n)

/-- Python `str.replace(pat, rep)` (every occurrence, left to right,
non-overlapping), fuelled by the input length for structural
recursion; the program only calls it with the non-empty pattern
`"Z"`. -/
def replaceAux (pat rep : List Char) : Nat → List Char → List Char
  | _, [] => []
  | 0, l => l
  | fuel + 1, c :: t =>
    if listStartsWith (c :: t) pat && !pat.isEmpty then
      rep ++ replaceAux pat rep fuel (t.drop (pat.length - 1))
    else c :: replaceAux pat rep fuel t

/-- Python `str.replace` on strings. -/
def pyReplace (s pat rep : String) : String :=
  String.mk (replaceAux pat.data rep.data s.data.length s.data)

/-- The character scanner inside `strip_html`: drop `<`, `>`, and every
character seen while the `in_tag` flag is set. -/
def stripTagsAux : Bool → List Char → List Char
  | _, [] => []
  | inTag, c :: t =>
    if c = '<' then stripTagsAux true t
    else if c = '>' then stripTagsAux false t
    else if inTag then stripTagsAux true t
    else c :: stripTagsAux false t

/-- Modelled from the spec: `build.py` delegates entity decoding to the
Python stdlib `html.unescape`, which is not part of this repository.
Per the spec it "decodes HTML/XML character entities (e.g., `&amp;`,
`&#39;`) to their literal characters"; this model decodes the
standard named entities and the numeric entity the spec cites. -/
def unescAux : List Char → List Char
  | [] => []
  | '&' :: 'a' :: 'm' :: 'p' :: ';' :: t => '&' :: unescAux t
  | '&' :: 'l' :: 't' :: ';' :: t => '<' :: unescAux t
  | '&' :: 'g' :: 't' :: ';' :: t => '>' :: unescAux t
  | '&' :: 'q' :: 'u' :: 'o' :: 't' :: ';' :: t => '"' :: unescAux t
  | '&' :: 'a' :: 'p' :: 'o' :: 's' :: ';' :: t => Char.ofNat 39 :: unescAux t
  | '&' :: '#' :: '3' :: '9' :: ';' :: t => Char.ofNat 39 :: unescAux t
  | c :: t => c :: unescAux t

/-- Modelled from the spec: Python `html.unescape` (see `unescAux`). -/
def htmlUnescape (s : String) : String :=
  String.mk (unescAux s.data)

/-- Function `strip_html` from `build.py`: remove tag-delimited characters, then
decode entities, then trim surrounding whitespace. -/
def strip_html (s : String) : String :=
  strTrim (htmlUnescape (String.mk (stripTagsAux false s.data)))

/-- The `content:encoded` image scan of `parse_rss`: find `<img`, then
`src="` after it, then the closing quote, and return the slice. -/
def imgFromContent (content : String) : String :=
  match strFind content "<img" 0 with
  | none => ""
  | some i =>
    match strFind content "src=\"" i with
    | none => ""
    | some j =>
      match strFind content "\"" (j + 5) with
      | none => ""
      | some e => String.mk ((content.data.drop (j + 5)).take (e - (j + 5)))

/-- First image tier of `parse_rss`: the Media-RSS `content` element's
`url` attribute, or `""` when the element is absent. -/
def mediaUrl (it : RssItem) : String :=
  match it.media with
  | some u => u
  | none => ""

/-- Second image tier of `parse_rss`: the `enclosure` `url` attribute
when the element is present and its `type` contains `"image"`. -/
def enclosureUrl (it : RssItem) : String :=
  match it.enclosure with
  | some (ty, u) => if strContains ty "image" then u else ""
  | none => ""

/-- Image extraction of `parse_rss` (lines 72-92): each later tier is
consulted only while `image` is still empty. -/
def imageOf (it : RssItem) : String :=
  if mediaUrl it ≠ "" then mediaUrl it
  else if enclosureUrl it ≠ "" then enclosureUrl it
  else imgFromContent it.contentEncoded

/-- Author extraction of `parse_rss`: `dc:creator` first, else `author`. -/
def rssAuthorOf (it : RssItem) : String :=
  if strTrim it.dcCreator ≠ "" then strTrim it.dcCreator else strTrim it.author

/-- Date extraction of `parse_rss`: `pd` stands for the stdlib
`parsedate_to_datetime`, with `none` for a raised `ValueError` /
`TypeError`; an empty `pubDate` is never parsed. -/
def rssDateOf {δ : Type} (pd : String → Option δ) (it : RssItem) : Option δ :=
  if strTrim it.pubDate = "" then none else pd (strTrim it.pubDate)

/-- One iteration of the `parse_rss` item loop: the item dict appended
to `items`, or `none` when the `if title and link` guard fails. -/
def rssEntryOf {δ : Type} (pd : String → Option δ) (src cat : String) (it : RssItem) :
    Option (Entry δ) :=
  if strTrim it.title ≠ "" ∧ strTrim it.link ≠ "" then
    some ⟨strTrim it.title, strTrim it.link, strTake (strip_html (strTrim it.description)) 300,
      rssDateOf pd it, src, cat, rssAuthorOf it, imageOf it⟩
  else none

/-- Function `parse_rss` from `build.py` (the per-item loop; a document-level
`ParseError` is modelled at the `processFeed` level). -/
def parse_rss {δ : Type} (pd : String → Option δ) (src cat : String)
    (items : List RssItem) : List (Entry δ) :=
  items.filterMap (rssEntryOf pd src cat)

/-- Link extraction of `parse_atom`: the `rel='alternate'` link first,
else the first `link` child, else `""`.  The `href` value is not
trimmed. -/
def atomLinkOf (nd : AtomNode) : String :=
  match nd.linkAlternate with
  | some h => h
  | none =>
    match nd.linkFirst with
    | some h => h
    | none => ""

/-- Summary extraction of `parse_atom`: trimmed `summary` text, else
the `content` text (when truthy) trimmed. -/
def atomSummaryOf (nd : AtomNode) : String :=
  if strTrim nd.summary ≠ "" then strTrim nd.summary
  else
    match nd.contentText with
    | some t => if t ≠ "" then strTrim t else ""
    | none => ""

/-- Date-string selection of `parse_atom`: `published or updated`,
both trimmed. -/
def atomDateStr (nd : AtomNode) : String :=
  if strTrim nd.published ≠ "" then strTrim nd.published else strTrim nd.updated

/-- Date extraction of `parse_atom`: `iso` stands for the stdlib
`datetime.fromisoformat`, with `none` for a raised error; the string
has every `"Z"` replaced by `"+00:00"` first (source line 149). -/
def atomDateOf {δ : Type} (iso : String → Option δ) (nd : AtomNode) : Option δ :=
  if atomDateStr nd = "" then none else iso (pyReplace (atomDateStr nd) "Z" "+00:00")

/-- Author extraction of `parse_atom`: text of `author/name`, trimmed. -/
def atomAuthorOf (nd : AtomNode) : String :=
  match nd.authorName with
  | some t => strTrim t
  | none => ""

/-- One iteration of the `parse_atom` entry loop. -/
def atomEntryOf {δ : Type} (iso : String → Option δ) (src cat : String) (nd : AtomNode) :
    Option (Entry δ) :=
  if strTrim nd.title ≠ "" ∧ atomLinkOf nd ≠ "" then
    some ⟨strTrim nd.title, atomLinkOf nd, strTake (strip_html (atomSummaryOf nd)) 300,
      atomDateOf iso nd, src, cat, atomAuthorOf nd, ""⟩
  else none

/-- Function `parse_atom` from `build.py` (the per-entry loop). -/
def parse_atom {δ : Type} (iso : String → Option δ) (src cat : String)
    (nodes : List AtomNode) : List (Entry δ) :=
  nodes.filterMap (atomEntryOf iso src cat)

/-- Dialect detection of `main` (line 569): `"<feed" in xml_text[:500]`. -/
def detectAtom (s : String) : Bool :=
  containsSub (s.data.take 500) ("<feed".data)

/-- A fetched document: its decoded text plus the node lists the two
dialect parsers would extract from it, with `none` standing for an
`ET.ParseError` (which makes the parser return `[]`). -/
structure XmlDoc where
  text : String
  rssItems : Option (List RssItem)
  atomEntries : Option (List AtomNode)
deriving Repr

/-- One configured feed after the fetch step: `fetched = none` models
`fetch_feed` returning `None` (network failure), which `main` skips. -/
structure FeedFetch where
  name : String
  category : String
  fetched : Option XmlDoc
deriving Repr

/-- The per-feed part of `main`'s loop: skip failed fetches, pick the
dialect by `detectAtom`, and parse (a parse error yields `[]`). -/
def processFeed {δ : Type} (pd iso : String → Option δ) (fd : FeedFetch) : List (Entry δ) :=
  match fd.fetched with
  | none => []
  | some doc =>
    if detectAtom doc.text then
      match doc.atomEntries with
      | none => []
      | some ns => parse_atom iso fd.name fd.category ns
    else
      match doc.rssItems with
      | none => []
      | some its => parse_rss pd fd.name fd.category its

/-- Constant `MAX_ITEMS` from `build.py` line 24. -/
def MAX_ITEMS : Nat := 200

/-- The sort key of `main` line 580 (`x["date"] or datetime.min`),
with aware datetimes modelled as seconds since `datetime.min` (so the
minimum possible date is `0`). -/
def pySortKey (e : Entry Nat) : Nat :=
  match e.date with
  | some d => d
  | none => 0

/-- Stable descending insertion: `a` goes in front of the first
element whose key is `≤ k a`.  Elements inserted earlier came later in
the original list, so ties keep their original order — the behaviour
Python documents for `list.sort(key=..., reverse=True)`. -/
def insertDesc {α : Type} (k : α → Nat) (a : α) : List α → List α
  | [] => [a]
  | b :: l => if k b ≤ k a then a :: b :: l else b :: insertDesc k a l

/-- Stable descending sort by `k`: the semantics of
`list.sort(key=k, reverse=True)`. -/
def sortDesc {α : Type} (k : α → Nat) : List α → List α
  | [] => []
  | a :: l => insertDesc k a (sortDesc k l)

/-- The aggregation step of `main` (lines 580-581): stable descending
sort by `pySortKey`, then truncation to `MAX_ITEMS`. -/
def aggregate (l : List (Entry Nat)) : List (Entry Nat) :=
  (sortDesc pySortKey l).take MAX_ITEMS

/-- A Python `datetime` as the sort sees it: either timezone-aware or
naive, each with its instant as a second count from the respective
`datetime.min`. -/
inductive PyDT : Type
  | aware (t : Nat) : PyDT
  | naive (t : Nat) : PyDT
deriving DecidableEq, Repr

/-- Python `<` on datetimes: comparing an aware with a naive datetime
raises `TypeError`, modelled as `none`. -/
def pyLtDT : PyDT → PyDT → Option Bool
  | .aware a, .aware b => some (decide (a < b))
  | .naive a, .naive b => some (decide (a < b))
  | _, _ => none

/-- The sort key of `main` line 580 over real Python datetimes: an
absent date becomes `datetime.min.replace(tzinfo=timezone.utc)`,
which is aware. -/
def pyKey (e : Entry PyDT) : PyDT :=
  match e.date with
  | some d => d
  | none => .aware 0

/-- Python `list.sort(key=..., reverse=True)` on a two-element list: CPython
performs exactly one key comparison; if it raises `TypeError` the
whole run aborts (`none`). -/
def pySort2 (e1 e2 : Entry PyDT) : Option (List (Entry PyDT)) :=
  match pyLtDT (pyKey e1) (pyKey e2) with
  | none => none
  | some b => some (if b then [e2, e1] else [e1, e2])

/-- Month abbreviations of `strftime("%b")` in the C locale. -/
def monthAbbr (m : Int) : String :=
  if m = 1 then "Jan" else if m = 2 then "Feb" else if m = 3 then "Mar"
  else if m = 4 then "Apr" else if m = 5 then "May" else if m = 6 then "Jun"
  else if m = 7 then "Jul" else if m = 8 then "Aug" else if m = 9 then "Sep"
  else if m = 10 then "Oct" else if m = 11 then "Nov" else "Dec"

/-- Proleptic-Gregorian conversion from days since 1970-01-01 to
`(year, month, day)` (Hinnant's `civil_from_days`). -/
def civilFromDays (z0 : Int) : Int × Int × Int :=
  let z := z0 + 719468
  let era := z.fdiv 146097
  let doe := z - era * 146097
  let yoe := (doe - doe.fdiv 1460 + doe.fdiv 36524 - doe.fdiv 146096).fdiv 365
  let y := yoe + era * 400
  let doy := doe - (365 * yoe + yoe.fdiv 4 - yoe.fdiv 100)
  let mp := (5 * doy + 2).fdiv 153
  let d := doy - (153 * mp + 2).fdiv 5 + 1
  let m := if mp < 10 then mp + 3 else mp - 9
  (if m ≤ 2 then y + 1 else y, m, d)

/-- Zero-padded two-digit day, as `strftime("%d")` prints it. -/
def pad2 (n : Int) : String :=
  if n < 10 then "0" ++ toString n else toString n

/-- Python `dt.strftime("%b %d, %Y")` for an instant given as POSIX seconds. -/
def strftime_b_d_Y (t : Int) : String :=
  match civilFromDays (t.fdiv 86400) with
  | (y, m, d) => monthAbbr m ++ " " ++ pad2 d ++ ", " ++ toString y

/-- Function `format_date` from `build.py`, on instants in POSIX seconds.
`diff.days` is floor division (Python `timedelta` normalization) and
`diff.seconds` is the nonnegative remainder. -/
def format_date (now dt : Int) : String :=
  let diff := now - dt
  let days := diff.fdiv 86400
  let secs := diff.fmod 86400
  if days = 0 then
    let hours := secs.fdiv 3600
    if hours = 0 then
      let mins := secs.fdiv 60
      if 0 < mins then toString mins ++ "m ago" else "just now"
    else toString hours ++ "h ago"
  else if days = 1 then "yesterday"
  else if days < 7 then toString days ++ "d ago"
  else strftime_b_d_Y dt

/-! ### Concrete inputs used by the claim theorems -/

/-- A dated entry (publish date 5 seconds after the minimum date). -/
def eA : Entry Nat := ⟨"A", "http://a", "", some 5, "S", "C", "", ""⟩

/-- A dated entry (publish date 3 seconds after the minimum date). -/
def eB : Entry Nat := ⟨"B", "http://b", "", some 3, "S", "C", "", ""⟩

/-- An entry whose publish date is exactly the minimum possible date
(reachable from an Atom `published` of `0001-01-01T00:00:00+00:00`). -/
def e0 : Entry Nat := ⟨"D", "http://d", "", some 0, "S", "C", "", ""⟩

/-- An undated entry. -/
def eU : Entry Nat := ⟨"U", "http://u", "", none, "S", "C", "", ""⟩

/-- An Atom node whose only `link` has the whitespace href `" "`. -/
def wsNode : AtomNode := ⟨"T", none, some " ", "", none, "", "", none⟩

/-- An ordinary Atom node with an alternate link. -/
def plainNode : AtomNode := ⟨"T", some "http://x", none, "", none, "", "", none⟩

/-- The entry `parse_atom` builds from `plainNode`. -/
def plainEntry : Entry Nat := ⟨"T", "http://x", "", none, "S", "C", "", ""⟩

/-- An RSS item carrying both a Media-RSS `content` url and an
`image/jpeg` `enclosure` url. -/
def jpegItem : RssItem :=
  ⟨"T", "http://t", "", "", "", "", some "http://media.example/m.png",
    some ("image/jpeg", "http://enc.example/e.jpg"), ""⟩

/-- An RSS item whose `pubDate` has no timezone, so
`parsedate_to_datetime` returns a naive datetime. -/
def rssItemNaive : RssItem :=
  ⟨"A", "http://a", "", "Thu, 01 Jan 2026 00:00:00", "", "", none, none, ""⟩

/-- An RSS item with no `pubDate` at all. -/
def rssItemUndated : RssItem := ⟨"B", "http://b", "", "", "", "", none, none, ""⟩

/-- The entry `parse_rss` builds from `rssItemNaive` when the date
parser returns a naive datetime at instant `t`. -/
def entryNaive (t : Nat) : Entry PyDT :=
  ⟨"A", "http://a", "", some (.naive t), "Feed", "News", "", ""⟩

/-- The entry `parse_rss` builds from `rssItemUndated`. -/
def entryUndated : Entry PyDT := ⟨"B", "http://b", "", none, "Feed", "News", "", ""⟩

/-- A concrete `parsedate_to_datetime` behaviour: the timezone-less
string parses to a naive datetime. -/
def pdNaive : String → Option PyDT :=
  fun s => if s = "Thu, 01 Jan 2026 00:00:00" then some (PyDT.naive 1767225600) else none

/-- An Atom node whose `published` date ends in a literal `Z`. -/
def zNode : AtomNode :=
  ⟨"T", some "http://z", none, "", none, "", "2024-05-01T10:00:00Z", none⟩

/-- A `fromisoformat` model that fails on every string. -/
def isoNone : String → Option Nat := fun _ => none

/-- The entry `parse_atom` builds from `zNode` under `isoNone`. -/
def zEntryNat : Entry Nat := ⟨"T", "http://z", "", none, "s", "c", "", ""⟩

/-- An Atom document whose text starts with `<feed`. -/
def atomDoc : XmlDoc := ⟨"<feed xmlns=\"http://www.w3.org/2005/Atom\">", none, some []⟩

/-! ### Helper lemmas about the embedded operations -/

theorem listStartsWith_iff (n l : List Char) :
    listStartsWith l n = true ↔ ∃ suf, l = n ++ suf := by
  induction n generalizing l with
  | nil => simp [listStartsWith]
  | cons d u ih =>
    cases l with
    | nil => simp [listStartsWith]
    | cons c t =>
      simp only [listStartsWith, Bool.and_eq_true, decide_eq_true_eq, ih]
      constructor
      · rintro ⟨rfl, suf, rfl⟩
        exact ⟨suf, rfl⟩
      · rintro ⟨suf, h⟩
        simp only [List.cons_append, List.cons.injEq] at h
        exact ⟨h.1, suf, h.2⟩

theorem findAux_isSome_iff (n l : List Char) (i : Nat) :
    (findAux n l i).isSome = true ↔ ∃ pre suf, l = pre ++ n ++ suf := by
  induction l generalizing i with
  | nil =>
    cases n with
    | nil =>
      refine iff_of_true ?_ ⟨[], [], rfl⟩
      simp [findAux, listStartsWith]
    | cons d u =>
      refine iff_of_false ?_ ?_
      · simp [findAux, listStartsWith]
      · rintro ⟨pre, suf, hps⟩
        cases pre <;> simp_all
  | cons c t ih =>
    show (if listStartsWith (c :: t) n then some i else findAux n t (i + 1)).isSome = true ↔ _
    by_cases h : listStartsWith (c :: t) n = true
    · rw [if_pos h]
      simp only [Option.isSome_some, true_iff]
      obtain ⟨suf, hs⟩ := (listStartsWith_iff n (c :: t)).1 h
      exact ⟨[], suf, by simpa using hs⟩
    · rw [if_neg h, ih (i + 1)]
      constructor
      · rintro ⟨pre, suf, ht⟩
        exact ⟨c :: pre, suf, by simp [ht]⟩
      · rintro ⟨pre, suf, hps⟩
        cases pre with
        | nil =>
          exact absurd ((listStartsWith_iff n (c :: t)).2 ⟨suf, by simpa using hps⟩) h
        | cons p pre' =>
          simp only [List.cons_append, List.cons.injEq] at hps
          exact ⟨pre', suf, hps.2⟩

theorem containsSub_iff (hay needle : List Char) :
    containsSub hay needle = true ↔ ∃ pre suf, hay = pre ++ needle ++ suf := by
  simpa [containsSub] using findAux_isSome_iff needle hay 0

theorem stripTagsAux_no_angle (b : Bool) (l : List Char) :
    '<' ∉ stripTagsAux b l ∧ '>' ∉ stripTagsAux b l := by
  induction l generalizing b with
  | nil => simp [stripTagsAux]
  | cons c t ih =>
    by_cases h1 : c = '<'
    · subst h1
      simpa [stripTagsAux] using ih true
    · by_cases h2 : c = '>'
      · subst h2
        simpa [stripTagsAux] using ih false
      · cases b with
        | true => simpa [stripTagsAux, h1, h2] using ih true
        | false =>
          simp only [stripTagsAux, h1, h2, if_false, Bool.false_eq_true]
          constructor
          · intro hm
            rcases List.mem_cons.1 hm with h | h
            · exact h1 h.symm
            · exact (ih false).1 h
          · intro hm
            rcases List.mem_cons.1 hm with h | h
            · exact h2 h.symm
            · exact (ih false).2 h

/-! ### Lemmas about the stable descending sort -/

theorem insertDesc_perm {α : Type} (k : α → Nat) (a : α) (l : List α) :
    (insertDesc k a l).Perm (a :: l) := by
  induction l with
  | nil => simp [insertDesc]
  | cons b t ih =>
    by_cases h : k b ≤ k a
    · simp [insertDesc, h]
    · simp only [insertDesc, h, if_false]
      exact ((ih.cons b).trans (List.Perm.swap a b t))

theorem sortDesc_perm {α : Type} (k : α → Nat) (l : List α) :
    (sortDesc k l).Perm l := by
  induction l with
  | nil => simp [sortDesc]
  | cons a t ih =>
    exact (insertDesc_perm k a (sortDesc k t)).trans (ih.cons a)

theorem insertDesc_pairwise {α : Type} (k : α → Nat) (a : α) (l : List α)
    (h : l.Pairwise (fun x y => k y ≤ k x)) :
    (insertDesc k a l).Pairwise (fun x y => k y ≤ k x) := by
  induction l with
  | nil => simp [insertDesc]
  | cons b t ih =>
    obtain ⟨hb, ht⟩ := List.pairwise_cons.1 h
    by_cases hba : k b ≤ k a
    · simp only [insertDesc, hba, if_true]
      refine List.pairwise_cons.2 ⟨?_, h⟩
      intro y hy
      rcases List.mem_cons.1 hy with rfl | hyt
      · exact hba
      · exact le_trans (hb y hyt) hba
    · simp only [insertDesc, hba, if_false]
      refine List.pairwise_cons.2 ⟨?_, ih ht⟩
      intro y hy
      have hy' := (insertDesc_perm k a t).mem_iff.1 hy
      rcases List.mem_cons.1 hy' with rfl | hyt
      · exact le_of_lt (lt_of_not_le hba)
      · exact hb y hyt

theorem sortDesc_pairwise {α : Type} (k : α → Nat) (l : List α) :
    (sortDesc k l).Pairwise (fun x y => k y ≤ k x) := by
  induction l with
  | nil => simp [sortDesc]
  | cons a t ih => exact insertDesc_pairwise k a (sortDesc k t) ih

/-- Stability at the level of one insertion: for a predicate that can
only hold inside a single key class, inserting `a` prepends it to the
class (every element passed over has a strictly larger key). -/
theorem filter_insertDesc {α : Type} (k : α → Nat) (p : α → Bool)
    (hp : ∀ x y, p x = true → p y = true → k x = k y) (a : α) (l : List α) :
    (insertDesc k a l).filter p = if p a then a :: l.filter p else l.filter p := by
  induction l with
  | nil =>
    by_cases h : p a <;> simp [insertDesc, List.filter, h]
  | cons b t ih =>
    by_cases hba : k b ≤ k a
    · by_cases h : p a <;> simp [insertDesc, hba, List.filter_cons, h]
    · simp only [insertDesc, hba, if_false, List.filter_cons]
      by_cases hpa : p a = true
      · have hpb : ¬ p b = true := by
          intro hpb
          exact hba (le_of_eq (hp b a hpb hpa))
        simp only [hpa, if_true] at ih ⊢
        simp only [Bool.not_eq_true] at hpb
        simp [hpb, ih]
      · simp only [Bool.not_eq_true] at hpa
        simp only [hpa, Bool.false_eq_true, if_false] at ih ⊢
        by_cases hpb : p b = true <;> simp [hpb, ih]

theorem sortDesc_filter {α : Type} (k : α → Nat) (p : α → Bool)
    (hp : ∀ x y, p x = true → p y = true → k x = k y) (l : List α) :
    (sortDesc k l).filter p = l.filter p := by
  induction l with
  | nil => simp [sortDesc]
  | cons a t ih =>
    simp only [sortDesc, filter_insertDesc k p hp, ih, List.filter_cons]

theorem sortDesc_eq_of_const {α : Type} (k : α → Nat) (c : Nat) (l : List α)
    (h : ∀ e ∈ l, k e = c) : sortDesc k l = l := by
  induction l with
  | nil => simp [sortDesc]
  | cons a t ih =>
    have ht : sortDesc k t = t := ih (fun e he => h e (List.mem_cons_of_mem a he))
    simp only [sortDesc, ht]
    cases t with
    | nil => simp [insertDesc]
    | cons b u =>
      have hb : k b ≤ k a := by
        rw [h b (by simp), h a (by simp)]
      simp [insertDesc, hb]

/-! ### Branch lemmas for `format_date` -/

theorem format_date_m (now dt m : Int) (h0 : (now - dt).fdiv 86400 = 0)
    (h1 : ((now - dt).fmod 86400).fdiv 3600 = 0)
    (h2 : ((now - dt).fmod 86400).fdiv 60 = m) (hm : 0 < m) :
    format_date now dt = toString m ++ "m ago" := by
  simp only [format_date, h0, h1, h2]
  norm_num [hm]

theorem format_date_y (now dt : Int) (h : (now - dt).fdiv 86400 = 1) :
    format_date now dt = "yesterday" := by
  simp only [format_date, h]
  norm_num

theorem format_date_d (now dt d : Int) (hday : (now - dt).fdiv 86400 = d)
    (h2 : ¬(d = 0)) (h3 : ¬(d = 1)) (h4 : d < 7) :
    format_date now dt = toString d ++ "d ago" := by
  simp only [format_date, hday]
  rw [if_neg h2, if_neg h3, if_pos h4]

theorem format_date_abs (now dt : Int) (h : 7 ≤ (now - dt).fdiv 86400) :
    format_date now dt = strftime_b_d_Y dt := by
  have h0 : ¬((now - dt).fdiv 86400 = 0) := fun he => by rw [he] at h; norm_num at h
  have h1 : ¬((now - dt).fdiv 86400 = 1) := fun he => by rw [he] at h; norm_num at h
  have h2 : ¬((now - dt).fdiv 86400 < 7) := fun hlt => absurd (lt_of_le_of_lt h hlt) (lt_irrefl _)
  simp only [format_date]
  rw [if_neg h0, if_neg h1, if_neg h2]

/-! ### Claim C4 -/

/-- Claim C4 counterexample: the claim says the output of the HTML
stripper never contains tag sequences, but entity decoding runs after
tag removal and can reintroduce angle brackets: on the input
`"<i>x</i> &lt;b&gt;"` (which does contain HTML tags) the output is
`"x <b>"`. -/
theorem C4_counterexample :
    ¬ (∀ s : String, '<' ∈ s.data → '<' ∉ (strip_html s).data) := by
  intro h
  exact h "<i>x</i> &lt;b&gt;" (by decide) (by decide)

/-- Claim C4, amended: tag removal leaves no `<` or `>` character in
the intermediate text; the entities are then decoded (which may
reintroduce literal angle brackets, as in the last example) and the
result is trimmed of surrounding whitespace. -/
theorem C4_amended_strip_html (s : String) :
    '<' ∉ stripTagsAux false s.data ∧ '>' ∉ stripTagsAux false s.data
    ∧ strip_html "<p>Tom &amp; Jerry</p>" = "Tom & Jerry"
    ∧ strip_html "  <div>It&#39;s here</div> " = "It\x27s here"
    ∧ strip_html "<i>x</i> &lt;b&gt;" = "x <b>" :=
  ⟨(stripTagsAux_no_angle false s.data).1, (stripTagsAux_no_angle false s.data).2,
    by decide, by decide, by decide⟩

/-! ### Claim C6 -/

/-- Claim C6 counterexample: an entry dated exactly 30 hours (108000
seconds) before render time is claimed to render as `"1d ago"`, but
`format_date` renders it as `"yesterday"` (the `diff.days == 1`
branch). -/
theorem C6_counterexample :
    ¬ (∀ now dt : Int, now - dt = 108000 → format_date now dt = "1d ago") := by
  intro h
  have h2 := h 108000 0 (by norm_num)
  rw [show format_date 108000 0 = "yesterday" from by decide] at h2
  exact absurd h2 (by decide)

/-- Claim C6, amended: at render time `now`, an entry dated exactly 30
hours before renders as `"yesterday"` (not `"1d ago"`); one dated
exactly 10 minutes before renders as `"10m ago"`; one dated exactly 8
days before renders as the absolute `strftime("%b %d, %Y")` string,
e.g. `"Nov 06, 2023"`. -/
theorem C6_amended_format_date (now : Int) :
    format_date now (now - 108000) = "yesterday"
    ∧ format_date now (now - 600) = "10m ago"
    ∧ format_date now (now - 691200) = strftime_b_d_Y (now - 691200)
    ∧ format_date 1700000000 1699308800 = "Nov 06, 2023" := by
  have e1 : now - (now - 108000) = 108000 := by ring
  have e2 : now - (now - 600) = 600 := by ring
  have e3 : now - (now - 691200) = 691200 := by ring
  refine ⟨?_, ?_, ?_, by decide⟩
  · exact format_date_y _ _ (by rw [e1]; decide)
  · exact (format_date_m now (now - 600) 10 (by rw [e2]; decide) (by rw [e2]; decide)
      (by rw [e2]; decide) (by norm_num)).trans (by decide)
  · exact format_date_abs _ _ (by rw [e3]; decide)

/-! ### Claim C7 -/

/-- Claim C7: RSS image extraction follows the three-tier priority
with the first non-empty match winning: Media-RSS `content` url, then
an `enclosure` whose type contains "image", then the first
`<img src="…">` of `content:encoded`; in particular an item with both
a Media-RSS url and an `image/jpeg` enclosure resolves to the
Media-RSS url. -/
theorem C7_image_priority (it : RssItem) :
    (∀ u, it.media = some u → u ≠ "" → imageOf it = u)
    ∧ (mediaUrl it = "" → ∀ ty v, it.enclosure = some (ty, v) →
        strContains ty "image" = true → v ≠ "" → imageOf it = v)
    ∧ (mediaUrl it = "" → enclosureUrl it = "" → imageOf it = imgFromContent it.contentEncoded)
    ∧ imageOf jpegItem = "http://media.example/m.png"
    ∧ imgFromContent "<p><img src=\"pic.png\" alt=\"x\"></p>" = "pic.png" := by
  refine ⟨?_, ?_, ?_, by decide, by decide⟩
  · intro u hm hne
    have hmu : mediaUrl it = u := by simp [mediaUrl, hm]
    unfold imageOf
    rw [hmu, if_pos hne]
  · intro hm0 ty v he hc hv
    have hE : enclosureUrl it = v := by simp [enclosureUrl, he, hc]
    unfold imageOf
    rw [hm0, hE, if_neg (by simp), if_pos hv]
  · intro hm0 hE0
    unfold imageOf
    rw [hm0, hE0, if_neg (by simp), if_neg (by simp)]

/-- Claim C7 witness: the theorem applied to the concrete item with
both a Media-RSS url and an `image/jpeg` enclosure. -/
theorem C7_image_priority_witness : imageOf jpegItem = "http://media.example/m.png" :=
  (C7_image_priority jpegItem).1 "http://media.example/m.png" rfl (by decide)

/-! ### Claim C8 -/

/-- Claim C8: dialect detection classifies as Atom exactly when the
literal `"<feed"` occurs inside the first 500 characters of the text,
and `main` routes the document to `parse_atom` in that case and to
`parse_rss` otherwise. -/
theorem C8_dialect_detection (s : String) (pd iso : String → Option Nat) (n c : String)
    (doc : XmlDoc) :
    (detectAtom s = true ↔ ∃ pre suf, s.data.take 500 = pre ++ ("<feed".data) ++ suf)
    ∧ ((∃ pre suf, doc.text.data.take 500 = pre ++ ("<feed".data) ++ suf) →
        processFeed pd iso ⟨n, c, some doc⟩ =
          (match doc.atomEntries with
           | none => []
           | some ns => parse_atom iso n c ns))
    ∧ (¬(∃ pre suf, doc.text.data.take 500 = pre ++ ("<feed".data) ++ suf) →
        processFeed pd iso ⟨n, c, some doc⟩ =
          (match doc.rssItems with
           | none => []
           | some its => parse_rss pd n c its)) := by
  refine ⟨containsSub_iff (s.data.take 500) ("<feed".data), ?_, ?_⟩
  · intro hocc
    have hd : detectAtom doc.text = true :=
      (containsSub_iff (doc.text.data.take 500) ("<feed".data)).2 hocc
    simp [processFeed, hd]
  · intro hocc
    have hd : ¬ detectAtom doc.text = true :=
      fun hb => hocc ((containsSub_iff (doc.text.data.take 500) ("<feed".data)).1 hb)
    simp only [Bool.not_eq_true] at hd
    simp [processFeed, hd]

/-- Claim C8 witness: the theorem applied to a concrete Atom document. -/
theorem C8_dialect_detection_witness :
    processFeed isoNone isoNone ⟨"n", "c", some atomDoc⟩ =
      (match atomDoc.atomEntries with
       | none => []
       | some ns => parse_atom isoNone "n" "c" ns) :=
  (C8_dialect_detection "" isoNone isoNone "n" "c" atomDoc).2.1
    ⟨[], " xmlns=\"http://www.w3.org/2005/Atom\">".data, by decide⟩

/-! ### Claim C10 -/

/-- Claim C10: an entry dated strictly later than render time renders
as the relative label `"{d}d ago"` where `d` is the (negative) floor
day difference — never as "just now", "yesterday", or an absolute
date. -/
theorem C10_future_relative (now dt : Int) (h : now < dt) :
    format_date now dt = toString ((now - dt).fdiv 86400) ++ "d ago"
    ∧ (now - dt).fdiv 86400 < 0 := by
  have hneg : now - dt < 0 := by omega
  have hd : (now - dt).fdiv 86400 < 0 := by
    rw [Int.fdiv_eq_ediv _ (by norm_num)]
    exact Int.ediv_neg' hneg (by norm_num)
  refine ⟨?_, hd⟩
  refine format_date_d now dt _ rfl ?_ ?_ ?_
  · intro h0
    rw [h0] at hd
    exact absurd hd (lt_irrefl 0)
  · intro h1
    rw [h1] at hd
    exact absurd hd (by norm_num)
  · exact lt_trans hd (by norm_num)

/-- Claim C10 witness: a date 5 seconds in the future renders as
`"-1d ago"`. -/
theorem C10_future_relative_witness :
    format_date 0 5 = toString (((0:Int) - 5).fdiv 86400) ++ "d ago"
    ∧ ((0:Int) - 5).fdiv 86400 < 0 :=
  C10_future_relative 0 5 (by norm_num)

/-! ### Claim C3 -/

/-- Claim C3 counterexample: the claim says an Entry is produced only
if the link is non-empty after trimming, but the Atom normalizer never
trims the `href` attribute: a whitespace-only href `" "` passes the
`if title and link` guard and yields an entry whose link trims to the
empty string. -/
theorem C3_counterexample :
    ¬ (∀ (nodes : List AtomNode) (e : Entry Nat),
        e ∈ parse_atom (fun _ => (none : Option Nat)) "S" "C" nodes → strTrim e.link ≠ "") := by
  intro h
  exact (h [wsNode] ⟨"T", " ", "", none, "S", "C", "", ""⟩ (by decide)) (by decide)

/-- Claim C3, amended: the RSS normalizer emits an item only when its
trimmed title and trimmed link are non-empty; the Atom normalizer
emits an entry only when its trimmed title is non-empty and its link
(the untrimmed `href`) is non-empty as-is — so every entry in the
aggregate has a non-empty title and a non-empty (but for Atom
possibly whitespace-only) link. -/
theorem C3_amended_required_fields {δ : Type} (pd iso : String → Option δ)
    (src cat : String) (items : List RssItem) (nodes : List AtomNode) :
    (∀ e ∈ parse_rss pd src cat items, e.title ≠ "" ∧ e.link ≠ "")
    ∧ (∀ it : RssItem, strTrim it.title = "" ∨ strTrim it.link = "" →
        rssEntryOf pd src cat it = none)
    ∧ (∀ e ∈ parse_atom iso src cat nodes, e.title ≠ "" ∧ e.link ≠ "")
    ∧ (∀ nd : AtomNode, strTrim nd.title = "" ∨ atomLinkOf nd = "" →
        atomEntryOf iso src cat nd = none) := by
  refine ⟨?_, ?_, ?_, ?_⟩
  · intro e he
    obtain ⟨it, _, hf⟩ := List.mem_filterMap.1 he
    unfold rssEntryOf at hf
    by_cases hc : strTrim it.title ≠ "" ∧ strTrim it.link ≠ ""
    · rw [if_pos hc] at hf
      have he' := Option.some.inj hf
      rw [← he']
      exact hc
    · rw [if_neg hc] at hf
      exact absurd hf (by simp)
  · intro it hor
    unfold rssEntryOf
    rw [if_neg]
    rintro ⟨h1, h2⟩
    rcases hor with h | h
    · exact h1 h
    · exact h2 h
  · intro e he
    obtain ⟨nd, _, hf⟩ := List.mem_filterMap.1 he
    unfold atomEntryOf at hf
    by_cases hc : strTrim nd.title ≠ "" ∧ atomLinkOf nd ≠ ""
    · rw [if_pos hc] at hf
      have he' := Option.some.inj hf
      rw [← he']
      exact hc
    · rw [if_neg hc] at hf
      exact absurd hf (by simp)
  · intro nd hor
    unfold atomEntryOf
    rw [if_neg]
    rintro ⟨h1, h2⟩
    rcases hor with h | h
    · exact h1 h
    · exact h2 h

/-- Claim C3 witness: the amended theorem applied to a parsed concrete
Atom node. -/
theorem C3_amended_required_fields_witness : plainEntry.title ≠ "" ∧ plainEntry.link ≠ "" :=
  (C3_amended_required_fields (fun _ => (none : Option Nat)) (fun _ => none)
    "S" "C" [] [plainNode]).2.2.1 plainEntry (by decide)

/-! ### Claim C9 -/

/-- Claim C9: the Atom publish date comes from the trimmed `published`
text when non-empty, else from `updated`; the chosen string has its
`"Z"` replaced by `"+00:00"` and is passed to the ISO-8601 parser
(`datetime.fromisoformat`), whose failure (`none`) leaves the date
unset instead of raising; an entry with no date string at all has no
date.  The last conjunct evaluates a node whose `published` ends in a
literal `Z`. -/
theorem C9_atom_date {δ : Type} (iso : String → Option δ) (src cat : String)
    (nd : AtomNode) (e : Entry δ) (h : atomEntryOf iso src cat nd = some e) :
    (strTrim nd.published ≠ "" →
      e.date = iso (pyReplace (strTrim nd.published) "Z" "+00:00"))
    ∧ (strTrim nd.published = "" → strTrim nd.updated ≠ "" →
      e.date = iso (pyReplace (strTrim nd.updated) "Z" "+00:00"))
    ∧ (strTrim nd.published = "" → strTrim nd.updated = "" → e.date = none)
    ∧ atomEntryOf iso "s" "c" zNode =
        some ⟨"T", "http://z", "", iso "2024-05-01T10:00:00+00:00", "s", "c", "", ""⟩ := by
  have hdate : e.date = atomDateOf iso nd := by
    unfold atomEntryOf at h
    by_cases hc : strTrim nd.title ≠ "" ∧ atomLinkOf nd ≠ ""
    · rw [if_pos hc] at h
      rw [← Option.some.inj h]
    · rw [if_neg hc] at h
      exact absurd h (by simp)
  refine ⟨?_, ?_, ?_, rfl⟩
  · intro hp
    have hds : atomDateStr nd = strTrim nd.published := by
      unfold atomDateStr
      rw [if_pos hp]
    rw [hdate]
    unfold atomDateOf
    rw [hds, if_neg hp]
  · intro hp hu
    have hds : atomDateStr nd = strTrim nd.updated := by
      unfold atomDateStr
      rw [if_neg (by simp [hp])]
    rw [hdate]
    unfold atomDateOf
    rw [hds, if_neg hu]
  · intro hp hu
    have hds : atomDateStr nd = "" := by
      unfold atomDateStr
      rw [if_neg (by simp [hp]), hu]
    rw [hdate]
    unfold atomDateOf
    rw [hds, if_pos rfl]

/-- Claim C9 witness: the theorem applied to the concrete `zNode`
under a parser that fails on every string (so the date stays unset). -/
theorem C9_atom_date_witness :
    zEntryNat.date = isoNone (pyReplace (strTrim zNode.published) "Z" "+00:00") :=
  (C9_atom_date isoNone "s" "c" zNode zEntryNat (by decide)).1 (by decide)

/-! ### Claim C5 -/

/-- Claim C5 (code bug): a single RSS feed whose content is ordinary —
one item with the parseable but timezone-less `pubDate`
`"Thu, 01 Jan 2026 00:00:00"` (which `parsedate_to_datetime` turns
into a naive datetime) and one item with no `pubDate` (whose sort key
is the timezone-aware `datetime.min`) — makes the aggregation sort of
`main` compare a naive with an aware datetime.  Python raises
`TypeError` there and the whole run aborts, contradicting the claim
that no per-feed content can abort the run. -/
theorem C5_sort_type_error (pd : String → Option PyDT) (t : Nat)
    (h : pd "Thu, 01 Jan 2026 00:00:00" = some (PyDT.naive t)) :
    parse_rss pd "Feed" "News" [rssItemNaive, rssItemUndated] = [entryNaive t, entryUndated]
    ∧ pySort2 (entryNaive t) entryUndated = none := by
  constructor
  · have hA : rssEntryOf pd "Feed" "News" rssItemNaive = some (entryNaive t) := by
      have hd : rssDateOf pd rssItemNaive = some (PyDT.naive t) := by
        unfold rssDateOf
        rw [if_neg (by decide)]
        exact h
      unfold rssEntryOf
      rw [if_pos (by decide), hd]
      rfl
    have hB : rssEntryOf pd "Feed" "News" rssItemUndated = some entryUndated := rfl
    unfold parse_rss
    simp only [List.filterMap_cons, hA, hB, List.filterMap_nil]
  · rfl

/-- Claim C5 witness: the theorem applied to a concrete
`parsedate_to_datetime` behaviour. -/
theorem C5_sort_type_error_witness :
    parse_rss pdNaive "Feed" "News" [rssItemNaive, rssItemUndated] =
      [entryNaive 1767225600, entryUndated]
    ∧ pySort2 (entryNaive 1767225600) entryUndated = none :=
  C5_sort_type_error pdNaive 1767225600 (by decide)

/-! ### Claim C1 -/

/-- Claim C1 counterexample: an undated entry is NOT always ordered
after all dated entries.  A dated entry whose date is exactly the
minimum possible date (reachable from an Atom `published` of
`0001-01-01T00:00:00+00:00`) gets the same sort key as every undated
entry, and the stable sort then keeps the input order: on
`[eU, e0]` (undated first, minimum-dated second) the undated entry
stays in front of the dated one. -/
theorem C1_counterexample :
    ¬ (∀ (l : List (Entry Nat)) (i j : Nat) (hi : i < (sortDesc pySortKey l).length)
        (hj : j < (sortDesc pySortKey l).length),
        ((sortDesc pySortKey l).get ⟨i, hi⟩).date = none →
        (((sortDesc pySortKey l).get ⟨j, hj⟩).date).isSome = true → j < i) := by
  intro h
  have h2 := h [eU, e0] 0 1 (by decide) (by decide) (by decide) (by decide)
  exact absurd h2 (by decide)

/-- Claim C1, amended: the aggregator sorts the combined list by the
key "publish date, with undated entries taking the minimum possible
date (0)", descending and stably.  Hence (a) an entry with a strictly
greater date precedes one with a smaller date, (b) an undated entry
comes after every entry whose date is strictly greater than the
minimum (an entry dated exactly the minimum ties with undated ones
instead), (c)/(d) entries with equal dates, and undated entries, keep
their original concatenation order, (e) every class of entries with
one and the same sort key — which for key 0 mixes the undated entries
with those dated exactly the minimum — keeps its original
concatenation order, and (f) the result is a permutation of the
input. -/
theorem C1_amended_sort (l : List (Entry Nat)) :
    (∀ (i j : Nat) (hi : i < (sortDesc pySortKey l).length)
        (hj : j < (sortDesc pySortKey l).length) (d1 d2 : Nat),
        ((sortDesc pySortKey l).get ⟨i, hi⟩).date = some d1 →
        ((sortDesc pySortKey l).get ⟨j, hj⟩).date = some d2 → d2 < d1 → i < j)
    ∧ (∀ (i j : Nat) (hi : i < (sortDesc pySortKey l).length)
        (hj : j < (sortDesc pySortKey l).length) (d : Nat),
        ((sortDesc pySortKey l).get ⟨i, hi⟩).date = none →
        ((sortDesc pySortKey l).get ⟨j, hj⟩).date = some d → 0 < d → j < i)
    ∧ (∀ d : Nat, (sortDesc pySortKey l).filter (fun e => decide (e.date = some d)) =
        l.filter (fun e => decide (e.date = some d)))
    ∧ ((sortDesc pySortKey l).filter (fun e => decide (e.date = none)) =
        l.filter (fun e => decide (e.date = none)))
    ∧ (∀ c : Nat, (sortDesc pySortKey l).filter (fun e => decide (pySortKey e = c)) =
        l.filter (fun e => decide (pySortKey e = c)))
    ∧ (sortDesc pySortKey l).Perm l := by
  have hget := (List.pairwise_iff_get).1 (sortDesc_pairwise pySortKey l)
  refine ⟨?_, ?_, ?_, ?_, ?_, sortDesc_perm pySortKey l⟩
  · intro i j hi hj d1 d2 hd1 hd2 hlt
    rcases Nat.lt_trichotomy i j with hij | hij | hij
    · exact hij
    · exfalso
      have heq : (⟨i, hi⟩ : Fin (sortDesc pySortKey l).length) = ⟨j, hj⟩ := Fin.ext hij
      rw [heq, hd2] at hd1
      exact absurd (Option.some.inj hd1) (by omega)
    · exfalso
      have hk := hget ⟨j, hj⟩ ⟨i, hi⟩ hij
      have e1 : pySortKey ((sortDesc pySortKey l).get ⟨i, hi⟩) = d1 := by
        simp only [pySortKey, hd1]
      have e2 : pySortKey ((sortDesc pySortKey l).get ⟨j, hj⟩) = d2 := by
        simp only [pySortKey, hd2]
      rw [e1, e2] at hk
      omega
  · intro i j hi hj d hd1 hd2 hdpos
    rcases Nat.lt_trichotomy j i with hij | hij | hij
    · exact hij
    · exfalso
      have heq : (⟨i, hi⟩ : Fin (sortDesc pySortKey l).length) = ⟨j, hj⟩ := Fin.ext hij.symm
      rw [heq, hd2] at hd1
      exact absurd hd1 (by simp)
    · exfalso
      have hk := hget ⟨i, hi⟩ ⟨j, hj⟩ hij
      have e1 : pySortKey ((sortDesc pySortKey l).get ⟨i, hi⟩) = 0 := by
        simp only [pySortKey, hd1]
      have e2 : pySortKey ((sortDesc pySortKey l).get ⟨j, hj⟩) = d := by
        simp only [pySortKey, hd2]
      rw [e1, e2] at hk
      omega
  · intro d
    refine sortDesc_filter pySortKey _ ?_ l
    intro x y hx hy
    simp only [decide_eq_true_eq] at hx hy
    simp [pySortKey, hx, hy]
  · refine sortDesc_filter pySortKey _ ?_ l
    intro x y hx hy
    simp only [decide_eq_true_eq] at hx hy
    simp [pySortKey, hx, hy]
  · intro c
    refine sortDesc_filter pySortKey _ ?_ l
    intro x y hx hy
    simp only [decide_eq_true_eq] at hx hy
    rw [hx, hy]

/-- Claim C1 witness: part (a) of the amended theorem applied to the
concrete list `[eA, eB]` (dates 5 and 3): the entry dated 5 sorts to
position 0, the entry dated 3 to position 1. -/
theorem C1_amended_sort_witness : 0 < 1 :=
  (C1_amended_sort [eA, eB]).1 0 1 (by decide) (by decide) 5 3 (by decide) (by decide)
    (by decide)

/-! ### Claim C2 -/

theorem countP_replicate' {α : Type} (p : α → Bool) (a : α) (n : Nat) :
    (List.replicate n a).countP p = if p a then n else 0 := by
  induction n with
  | zero => simp
  | succ n ih =>
    rw [List.replicate_succ, List.countP_cons, ih]
    by_cases hp : p a <;> simp [hp]

/-- Claim C2 counterexample: with 201 entries — an undated one
followed by 200 entries dated exactly the minimum possible date — the
input has 200 dated entries, yet the undated entry still appears in
the truncated aggregate (all 201 sort keys are equal, the stable sort
keeps the undated entry first, and truncation keeps it). -/
theorem C2_counterexample :
    ¬ (∀ l : List (Entry Nat), MAX_ITEMS < l.length →
        (∃ e ∈ aggregate l, e.date = none) →
        l.countP (fun x => x.date.isSome) < MAX_ITEMS) := by
  intro h
  have hsort : sortDesc pySortKey (eU :: List.replicate 200 e0) =
      eU :: List.replicate 200 e0 := by
    refine sortDesc_eq_of_const pySortKey 0 _ ?_
    intro e he
    rcases List.mem_cons.1 he with rfl | he'
    · rfl
    · rw [List.eq_of_mem_replicate he']
      rfl
  have hagg : aggregate (eU :: List.replicate 200 e0) =
      eU :: (List.replicate 200 e0).take 199 := by
    rw [aggregate, hsort]
    rfl
  have hmem : eU ∈ aggregate (eU :: List.replicate 200 e0) := by
    rw [hagg]
    exact List.mem_cons_self eU _
  have hcount : (eU :: List.replicate 200 e0).countP (fun x => x.date.isSome) = 200 := by
    rw [List.countP_cons, countP_replicate']
    simp [eU, e0]
  have hfin := h (eU :: List.replicate 200 e0)
    (by rw [List.length_cons, List.length_replicate]; norm_num [MAX_ITEMS]) ⟨eU, hmem, rfl⟩
  rw [hcount] at hfin
  exact absurd hfin (by norm_num [MAX_ITEMS])

/-- Claim C2, amended: with more than 200 combined entries the
aggregate has exactly 200 entries, and they are the 200 greatest under
the sort key "date, or the minimum possible date when undated" (every
kept entry's key is at least every dropped entry's key); an undated
entry can appear in the result only if fewer than 200 entries have a
date strictly greater than the minimum possible date. -/
theorem C2_amended_truncation (l : List (Entry Nat)) (h : MAX_ITEMS < l.length) :
    (aggregate l).length = MAX_ITEMS
    ∧ (∀ e ∈ aggregate l, ∀ e' ∈ (sortDesc pySortKey l).drop MAX_ITEMS,
        pySortKey e' ≤ pySortKey e)
    ∧ (∀ e ∈ aggregate l, e.date = none →
        l.countP (fun x => decide (0 < pySortKey x)) < MAX_ITEMS) := by
  have hlen : (sortDesc pySortKey l).length = l.length := (sortDesc_perm pySortKey l).length_eq
  have hpw2 : ((sortDesc pySortKey l).take MAX_ITEMS ++
      (sortDesc pySortKey l).drop MAX_ITEMS).Pairwise
      (fun x y => pySortKey y ≤ pySortKey x) := by
    rw [List.take_append_drop]
    exact sortDesc_pairwise pySortKey l
  have hpair := (List.pairwise_append.1 hpw2).2.2
  refine ⟨?_, ?_, ?_⟩
  · rw [aggregate, List.length_take, hlen]
    omega
  · intro e he e' he'
    exact hpair e he e' he'
  · intro e he hdate
    have hke : pySortKey e = 0 := by simp only [pySortKey, hdate]
    have he' : e ∈ (sortDesc pySortKey l).take MAX_ITEMS := he
    have hcnt : l.countP (fun x => decide (0 < pySortKey x)) =
        ((sortDesc pySortKey l).take MAX_ITEMS).countP (fun x => decide (0 < pySortKey x)) +
        ((sortDesc pySortKey l).drop MAX_ITEMS).countP (fun x => decide (0 < pySortKey x)) := by
      rw [← List.countP_append, List.take_append_drop]
      exact ((sortDesc_perm pySortKey l).countP_eq _).symm
    have hdrop : ((sortDesc pySortKey l).drop MAX_ITEMS).countP
        (fun x => decide (0 < pySortKey x)) = 0 := by
      rw [List.countP_eq_zero]
      intro y hy
      have hle := hpair e he' y hy
      simp only [decide_eq_true_eq]
      omega
    have htklen : ((sortDesc pySortKey l).take MAX_ITEMS).length ≤ MAX_ITEMS :=
      List.length_take_le _ _
    have htkp : ((sortDesc pySortKey l).take MAX_ITEMS).countP
        (fun x => decide (0 < pySortKey x)) ≤
        ((sortDesc pySortKey l).take MAX_ITEMS).length := List.countP_le_length _
    have hne : ((sortDesc pySortKey l).take MAX_ITEMS).countP
        (fun x => decide (0 < pySortKey x)) ≠
        ((sortDesc pySortKey l).take MAX_ITEMS).length := by
      intro heq
      have hall := List.countP_eq_length.1 heq e he'
      simp [hke] at hall
    omega

/-- Claim C2 witness: the amended theorem applied to a concrete list
of 201 dated entries. -/
theorem C2_amended_truncation_witness :
    (aggregate (eA :: List.replicate 200 eB)).length = MAX_ITEMS :=
  (C2_amended_truncation (eA :: List.replicate 200 eB)
    (by rw [List.length_cons, List.length_replicate]; norm_num [MAX_ITEMS])).1

end TFM
